import Mathlib

/-!
Verification of the two applications in this repository against their
specification.

* `Project_2/app.py` — the "Missing Data Cleaner": the Clean Data block
  (lines 75–112) copies the uploaded dataframe and fills missing values
  per column with the mean, median or mode, optionally restricted to
  numeric columns, then reports the remaining missing-cell count.
* `Project_1/app.py` — the inventory dashboard: an in-memory record
  store with `generate_sample_data`, `add_product`, sample regeneration
  and clear-all operations.

The embedding models a dataframe as a list of typed columns whose cells
are optional values (`none` = NaN), and the inventory session state as a
record list plus the `next_id` counter.  Machine floats of the source are
modelled as rationals; the randomness of the sample generator is an
explicit list of picks supplied by the environment.
-/

namespace Cleaner

/-- A cell value of the dataframe: a numeric value (pandas float/int,
modelled as `ℚ`) or a text value. -/
inductive Val where
  | num (q : ℚ)
  | str (s : String)
deriving DecidableEq, Repr

/-- The numeric content of a value, when it has one. -/
def Val.asNum : Val → Option ℚ
  | .num q => some q
  | .str _ => none

/-- Strict comparison of values, mirroring the sort order pandas uses
inside a homogeneous column (`ℚ` order on numbers, code-point
lexicographic order on strings; numbers sort before strings so the
function is total). -/
def Val.ltb : Val → Val → Bool
  | .num a, .num b => decide (a < b)
  | .num _, .str _ => true
  | .str _, .num _ => false
  | .str a, .str b => decide (a.data < b.data)

/-- One dataframe column: its name, its declared dtype
(`numeric = true` ↔ `pd.api.types.is_numeric_dtype` holds, equivalently
the column is kept by `select_dtypes(include=[np.number])`), and its
cells, `none` standing for a missing value (NaN). -/
structure Column where
  name : String
  numeric : Bool
  cells : List (Option Val)
deriving DecidableEq, Repr

/-- A dataframe: an ordered list of named columns. -/
abbrev Table := List Column

/-- The non-missing values of a cell list, in row order
(`Series.dropna`). -/
def presentVals (c : Column) : List Val :=
  c.cells.filterMap id

/-- The non-missing numeric values of a column, in row order. -/
def presentNums (c : Column) : List ℚ :=
  c.cells.filterMap (fun o => o.bind Val.asNum)

/-- `isnull().sum()` for one column. -/
def Column.missingCount (c : Column) : Nat :=
  c.cells.count none

/-- `isnull().sum().sum()` for the whole table (line 108 of the app). -/
def Table.missingCount (t : Table) : Nat :=
  (t.map Column.missingCount).sum

/-- The table's missing-value pattern: which cells are missing. -/
def Table.missingPattern (t : Table) : List (List Bool) :=
  t.map (fun c => c.cells.map Option.isNone)

/-- A table is well formed when every cell of a numeric-dtype column is
missing or numeric (which pandas guarantees by construction). -/
def Table.wf (t : Table) : Bool :=
  t.all (fun c => !c.numeric || c.cells.all (fun o => (o.bind Val.asNum).isSome || o.isNone))

/-- `Series.mean()` on the non-missing values: the arithmetic mean, or
nothing when no value is present (pandas returns NaN, so the later
`fillna` has no effect either way). -/
def meanQ (l : List ℚ) : Option ℚ :=
  if l.isEmpty then none else some (l.sum / l.length)

/-- Insertion into a sorted list of rationals. -/
def insertSorted (q : ℚ) : List ℚ → List ℚ
  | [] => [q]
  | x :: xs => if q ≤ x then q :: x :: xs else x :: insertSorted q xs

/-- Ascending insertion sort of the rationals. -/
def sortQ (l : List ℚ) : List ℚ :=
  l.foldr insertSorted []

/-- `Series.median()` on the non-missing values: middle of the sorted
values, average of the two middles at even length, nothing when no value
is present. -/
def medianQ (l : List ℚ) : Option ℚ :=
  let s := sortQ l
  let n := s.length
  if n = 0 then none
  else if n % 2 = 1 then some (s.getD (n / 2) 0)
  else some ((s.getD (n / 2 - 1) 0 + s.getD (n / 2) 0) / 2)

/-- The values of maximal multiplicity among `l` (the candidates
`Series.mode()` returns; pandas sorts them ascending). -/
def modeCandidates (l : List Val) : List Val :=
  l.dedup.filter (fun v => l.dedup.all (fun w => decide (l.count w ≤ l.count v)))

/-- Least element of a value list under the pandas sort order. -/
def minVal : List Val → Option Val
  | [] => none
  | v :: vs => some (vs.foldl (fun a b => if Val.ltb b a then b else a) v)

/-- `Series.mode()[0] if not Series.mode().empty else None` (line 96):
the smallest value of maximal multiplicity, if any value is present. -/
def modeFill (l : List Val) : Option Val :=
  minVal (modeCandidates l)

/-- The fill methods offered by the radio button. -/
inductive FillMethod where
  | mean
  | median
  | mode
deriving DecidableEq, Repr

/-- Lines 91–98: the per-column fill value; `none` models Python's
`filled_value = None` and a NaN fill value (both leave the column
unchanged). -/
def fillValue (m : FillMethod) (c : Column) : Option Val :=
  match m with
  | .mean => if c.numeric then (meanQ (presentNums c)).map Val.num else none
  | .median => if c.numeric then (medianQ (presentNums c)).map Val.num else none
  | .mode => modeFill (presentVals c)

/-- Lines 90–101 for one column: when the column has missing cells and a
fill value exists, `fillna` replaces every missing cell by it. -/
def fillColumn (m : FillMethod) (c : Column) : Column :=
  if 0 < c.missingCount then
    match fillValue m c with
    | some v => { c with cells := c.cells.map (fun o => some (o.getD v)) }
    | none => c
  else c

/-- One column of the Clean Data pass: columns outside the processing
scope (non-numeric while "Exclude non-numeric columns" is checked, lines
80–86) pass through untouched. -/
def colClean (m : FillMethod) (excludeCols : Bool) (c : Column) : Column :=
  if excludeCols && !c.numeric then c else fillColumn m c

/-- Lines 77–101: the imputation engine, producing the cleaned table. -/
def cleanData (m : FillMethod) (excludeCols : Bool) (t : Table) : Table :=
  t.map (colClean m excludeCols)

/-- A column is in the processing scope of the Clean Data pass. -/
def inScope (ex : Bool) (c : Column) : Bool :=
  !ex || c.numeric

/-- A column is eligible for the given method: Mean/Median require a
numeric dtype, Mode requires at least one non-missing value. -/
def eligible (m : FillMethod) (c : Column) : Bool :=
  match m with
  | .mean => c.numeric
  | .median => c.numeric
  | .mode => !(presentVals c).isEmpty

/-- The input table of the specification's Mean scenario:
`Age=[28, NaN, 30], Salary=[NaN, 45000, 50000]`. -/
def exampleInput : Table :=
  [⟨"Age", true, [some (.num 28), none, some (.num 30)]⟩,
   ⟨"Salary", true, [none, some (.num 45000), some (.num 50000)]⟩]

/-- The expected output of the scenario:
`Age=[28, 29, 30], Salary=[47500, 45000, 50000]`. -/
def exampleExpected : Table :=
  [⟨"Age", true, [some (.num 28), some (.num 29), some (.num 30)]⟩,
   ⟨"Salary", true, [some (.num 47500), some (.num 45000), some (.num 50000)]⟩]

/-- The two dataframes the Clean Data block holds: the uploaded `df`
and `cleaned_df`. -/
structure CleanSession where
  df : Table
  cleaned : Table

/-- The Clean Data block as a state transformer: `cleaned_df = df.copy()`
(line 77) followed by the fill loop, which writes only to `cleaned_df`. -/
def runCleanBlock (m : FillMethod) (excludeCols : Bool) (df₀ : Table) : CleanSession :=
  let s : CleanSession := { df := df₀, cleaned := df₀ }
  { s with cleaned := cleanData m excludeCols s.cleaned }

end Cleaner

namespace Inventory

/-- Little-endian decimal digits of `n` (`[]` for `0`), written with
explicit fuel so that it is structurally recursive; the fuel `n` always
suffices. -/
def digitsLEfuel : Nat → Nat → List Nat
  | 0, _ => []
  | _ + 1, 0 => []
  | f + 1, n + 1 => ((n + 1) % 10) :: digitsLEfuel f ((n + 1) / 10)

/-- Little-endian decimal digits of `n`. -/
def digitsLE (n : Nat) : List Nat :=
  digitsLEfuel n n

/-- The character of a decimal digit. -/
def digitChar (d : Nat) : Char :=
  Char.ofNat (48 + d)

/-- The decimal representation of `n` as Python's `"%d"` prints it. -/
def natToChars (n : Nat) : List Char :=
  if n = 0 then ['0'] else ((digitsLE n).map digitChar).reverse

/-- `f"P{n:03d}"` (lines 40 and 70): the decimal representation
zero-padded on the left to width 3, prefixed by `P`. -/
def pidChars (n : Nat) : List Char :=
  'P' :: (List.replicate (3 - (natToChars n).length) '0' ++ natToChars n)

/-- The product identifier assigned to sequence number `n`. -/
def formatPID (n : Nat) : String :=
  String.mk (pidChars n)

/-- The big-endian decimal value of a character list (a left inverse of
the padding, used to prove identifiers distinct). -/
def decodeDigits (l : List Char) : Nat :=
  l.foldl (fun a c => 10 * a + (c.toNat - 48)) 0

/-- The derived stock status (lines 45 and 118):
`'Low Stock' if quantity <= reorder_level else 'In Stock'`. -/
def statusOf (quantity reorderLevel : Nat) : String :=
  if quantity ≤ reorderLevel then "Low Stock" else "In Stock"

/-- One inventory record, with the keys of the dict built at lines
39–46 and 112–119. -/
structure Product where
  productID : String
  name : String
  category : String
  quantityAvailable : Nat
  reorderLevel : Nat
  status : String
deriving DecidableEq, Repr

/-- The random draws `generate_sample_data` takes per item (category,
name with its random suffix, quantity, reorder level); randomness is
external, so the picks are an input of the model. -/
structure SamplePick where
  name : String
  category : String
  quantity : Nat
  reorderLevel : Nat
deriving DecidableEq, Repr

/-- The record built for sequence number `i` from pick `pk`. -/
def mkSample (i : Nat) (pk : SamplePick) : Product :=
  { productID := formatPID i
    name := pk.name
    category := pk.category
    quantityAvailable := pk.quantity
    reorderLevel := pk.reorderLevel
    status := statusOf pk.quantity pk.reorderLevel }

/-- The loop `for i in range(1, num_items + 1)` of
`generate_sample_data`, carrying the running sequence number. -/
def generateFrom : Nat → List SamplePick → List Product
  | _, [] => []
  | i, pk :: rest => mkSample i pk :: generateFrom (i + 1) rest

/-- `generate_sample_data` (lines 30–47): one record per pick, sequence
numbers starting at 1. -/
def generate_sample_data (picks : List SamplePick) : List Product :=
  generateFrom 1 picks

/-- The session state: the record list `st.session_state.data` and the
counter `st.session_state.next_id`. -/
structure InventoryState where
  data : List Product
  next_id : Nat
deriving DecidableEq, Repr

/-- The user-visible message an operation leaves behind
(`st.error` / `st.success`). -/
inductive Msg where
  | error (s : String)
  | success (s : String)
deriving DecidableEq, Repr

/-- `add_product` (lines 106–124): an empty name is rejected with an
error and nothing changes; otherwise the record is appended, the
counter incremented and success reported. -/
def add_product (st : InventoryState) (product_id name category : String)
    (quantity reorder_level : Nat) : InventoryState × Msg :=
  if name = "" then
    (st, .error "Please enter a product name")
  else
    ({ data := st.data ++
        [{ productID := product_id
           name := name
           category := category
           quantityAvailable := quantity
           reorderLevel := reorder_level
           status := statusOf quantity reorder_level }]
       next_id := st.next_id + 1 },
     .success ("Product '" ++ name ++ "' added successfully!"))

/-- The add form (lines 68–92) passes the auto-generated identifier
`f"P{st.session_state.next_id:03d}"` to `add_product`. -/
def submitAddForm (st : InventoryState) (name category : String)
    (quantity reorder_level : Nat) : InventoryState × Msg :=
  add_product st (formatPID st.next_id) name category quantity reorder_level

/-- The "Generate Sample Data" button (lines 96–99): the collection is
replaced by fresh sample data and `next_id` becomes its length + 1. -/
def regenerateSampleData (_st : InventoryState) (picks : List SamplePick) : InventoryState :=
  let newData := generate_sample_data picks
  { data := newData, next_id := newData.length + 1 }

/-- The "Clear All Data" button (lines 101–104). -/
def clearAll (_st : InventoryState) : InventoryState :=
  { data := [], next_id := 1 }

end Inventory

/-! ## Basic lemmas about the imputation engine -/

namespace Cleaner

lemma map_fill_of_no_missing {cells : List (Option Val)} (h : cells.count none = 0)
    (v : Val) : cells.map (fun o => some (o.getD v)) = cells := by
  induction cells with
  | nil => rfl
  | cons o rest ih =>
    rw [List.count_cons] at h
    cases o with
    | none => simp at h
    | some x =>
      have hrest : rest.count none = 0 := by omega
      simp [ih hrest]

lemma count_none_map_fill (cells : List (Option Val)) (v : Val) :
    (cells.map (fun o => some (o.getD v))).count none = 0 := by
  rw [List.count_eq_zero]
  intro hmem
  rcases List.mem_map.mp hmem with ⟨o, _, h⟩
  exact Option.noConfusion h

lemma fillColumn_of_no_missing {m : FillMethod} {c : Column}
    (h : c.missingCount = 0) : fillColumn m c = c := by
  simp [fillColumn, h]

lemma fillColumn_of_fillValue_none {m : FillMethod} {c : Column}
    (h : fillValue m c = none) : fillColumn m c = c := by
  unfold fillColumn
  rw [h]
  split <;> rfl

lemma fillColumn_of_fillValue_some {m : FillMethod} {c : Column} {v : Val}
    (h : fillValue m c = some v) :
    fillColumn m c = { c with cells := c.cells.map (fun o => some (o.getD v)) } := by
  unfold fillColumn
  rw [h]
  split
  · rfl
  · rename_i hn
    have h0 : c.missingCount = 0 := by omega
    rw [map_fill_of_no_missing h0]

lemma fillColumn_numeric (m : FillMethod) (c : Column) :
    (fillColumn m c).numeric = c.numeric := by
  unfold fillColumn
  split
  · split <;> rfl
  · rfl

lemma fillColumn_missing_eq_zero_or_id (m : FillMethod) (c : Column) :
    (fillColumn m c).missingCount = 0 ∨ fillColumn m c = c := by
  unfold fillColumn
  split
  · cases hfv : fillValue m c with
    | none => right; rfl
    | some v =>
      left
      simp only [Column.missingCount]
      exact count_none_map_fill c.cells v
  · right; rfl

lemma fillColumn_idem (m : FillMethod) (c : Column) :
    fillColumn m (fillColumn m c) = fillColumn m c := by
  rcases fillColumn_missing_eq_zero_or_id m c with h | h
  · exact fillColumn_of_no_missing h
  · rw [h, h]

lemma colClean_numeric (m : FillMethod) (ex : Bool) (c : Column) :
    (colClean m ex c).numeric = c.numeric := by
  unfold colClean
  split
  · rfl
  · exact fillColumn_numeric m c

lemma colClean_idem (m : FillMethod) (ex : Bool) (c : Column) :
    colClean m ex (colClean m ex c) = colClean m ex c := by
  by_cases h : (ex && !c.numeric) = true
  · have h1 : colClean m ex c = c := by rw [colClean, if_pos h]
    rw [h1, h1]
  · have h1 : colClean m ex c = fillColumn m c := by rw [colClean, if_neg h]
    rw [h1, colClean, fillColumn_numeric, if_neg h]
    exact fillColumn_idem m c

lemma cleanData_idem (m : FillMethod) (ex : Bool) (t : Table) :
    cleanData m ex (cleanData m ex t) = cleanData m ex t := by
  unfold cleanData
  rw [List.map_map]
  exact List.map_congr_left (fun c _ => colClean_idem m ex c)

end Cleaner

namespace Cleaner

lemma ltb_irrefl (v : Val) : Val.ltb v v = false := by
  cases v with
  | num q => simp [Val.ltb]
  | str s => simp [Val.ltb]

lemma ltb_trans {a b c : Val} (h1 : Val.ltb a b = true) (h2 : Val.ltb b c = true) :
    Val.ltb a c = true := by
  cases a <;> cases b <;> cases c <;>
    simp only [Val.ltb, decide_eq_true_eq] at h1 h2 ⊢ <;>
    first
      | trivial
      | exact lt_trans h1 h2

lemma bool_true_of_not_false {b : Bool} (h : ¬ b = false) : b = true := by
  cases b
  · exact absurd rfl h
  · rfl

lemma ltb_connex {a b : Val} (h1 : Val.ltb a b = false) (h2 : Val.ltb b a = false) :
    a = b := by
  cases a with
  | num q1 =>
    cases b with
    | num q2 =>
      simp only [Val.ltb, decide_eq_false_iff_not, not_lt] at h1 h2
      exact congrArg Val.num (le_antisymm h2 h1)
    | str s2 => simp [Val.ltb] at h1
  | str s1 =>
    cases b with
    | num q2 => simp [Val.ltb] at h2
    | str s2 =>
      simp only [Val.ltb, decide_eq_false_iff_not, not_lt] at h1 h2
      have hd : s1.data = s2.data := le_antisymm h2 h1
      cases s1 with
      | mk d1 =>
        cases s2 with
        | mk d2 =>
          have hd2 : d1 = d2 := hd
          rw [hd2]

lemma ltb_of_ltb_of_not_ltb {a b c : Val} (h1 : Val.ltb a b = true)
    (h2 : Val.ltb c b = false) : Val.ltb a c = true := by
  by_cases hac : Val.ltb a c = true
  · exact hac
  · by_cases hca : Val.ltb c a = true
    · exact absurd (ltb_trans hca h1) (by simp [h2])
    · have : a = c := ltb_connex (Bool.eq_false_iff.mpr hac) (Bool.eq_false_iff.mpr hca)
      subst this
      exact absurd h1 (by simp [h2])

lemma foldl_min_mem (vs : List Val) : ∀ (v : Val),
    (vs.foldl (fun a b => if Val.ltb b a then b else a) v) ∈ v :: vs := by
  induction vs with
  | nil =>
    intro v
    rw [List.foldl_nil]
    exact List.mem_cons_self _ _
  | cons b vs ih =>
    intro v
    rw [List.foldl_cons]
    by_cases hbv : Val.ltb b v = true
    · rw [if_pos hbv]
      rcases List.mem_cons.mp (ih b) with h | h
      · rw [h]
        exact List.mem_cons_of_mem _ (List.mem_cons_self _ _)
      · exact List.mem_cons_of_mem _ (List.mem_cons_of_mem _ h)
    · rw [if_neg hbv]
      rcases List.mem_cons.mp (ih v) with h | h
      · rw [h]
        exact List.mem_cons_self _ _
      · exact List.mem_cons_of_mem _ (List.mem_cons_of_mem _ h)

lemma foldl_min_le (vs : List Val) : ∀ (v w : Val), w ∈ v :: vs →
    Val.ltb w (vs.foldl (fun a b => if Val.ltb b a then b else a) v) = false := by
  induction vs with
  | nil =>
    intro v w hw
    rw [List.foldl_nil]
    rcases List.mem_cons.mp hw with hwv | hw2
    · rw [hwv]
      exact ltb_irrefl v
    · exact absurd hw2 (List.not_mem_nil w)
  | cons b vs ih =>
    intro v w hw
    rw [List.foldl_cons]
    by_cases hbv : Val.ltb b v = true
    · rw [if_pos hbv]
      rcases List.mem_cons.mp hw with hwv | hw2
      · rw [hwv]
        by_contra hvr
        have hvr' := bool_true_of_not_false hvr
        have hbr := ltb_trans hbv hvr'
        have hminb := ih b b (List.mem_cons_self _ _)
        rw [hminb] at hbr
        exact Bool.false_ne_true hbr
      · exact ih b w hw2
    · rw [if_neg hbv]
      have hbv' : Val.ltb b v = false := Bool.eq_false_iff.mpr hbv
      rcases List.mem_cons.mp hw with hwv | hw2
      · rw [hwv]
        exact ih v v (List.mem_cons_self _ _)
      · rcases List.mem_cons.mp hw2 with hwb | hw3
        · rw [hwb]
          by_contra hbr
          have hbr' := bool_true_of_not_false hbr
          have hminv := ih v v (List.mem_cons_self _ _)
          have hc : Val.ltb b v = true := ltb_of_ltb_of_not_ltb hbr' hminv
          rw [hbv'] at hc
          exact Bool.false_ne_true hc
        · exact ih v w (List.mem_cons_of_mem _ hw3)

lemma exists_count_max {α : Type} (f : α → Nat) :
    ∀ (l : List α), l ≠ [] → ∃ v ∈ l, ∀ w ∈ l, f w ≤ f v := by
  intro l
  induction l with
  | nil => intro h; exact absurd rfl h
  | cons a l ih =>
    intro _
    by_cases hl : l = []
    · subst hl
      refine ⟨a, List.mem_cons_self _ _, ?_⟩
      intro w hw
      rcases List.mem_cons.mp hw with rfl | hw
      · exact le_rfl
      · exact absurd hw (List.not_mem_nil w)
    · obtain ⟨v, hv, hmax⟩ := ih hl
      by_cases hav : f a ≤ f v
      · refine ⟨v, List.mem_cons_of_mem _ hv, ?_⟩
        intro w hw
        rcases List.mem_cons.mp hw with rfl | hw
        · exact hav
        · exact hmax w hw
      · refine ⟨a, List.mem_cons_self _ _, ?_⟩
        intro w hw
        rcases List.mem_cons.mp hw with rfl | hw
        · exact le_rfl
        · exact le_trans (hmax w hw) (le_of_not_le hav)

lemma modeFill_spec (l : List Val) (h : l ≠ []) :
    ∃ v, modeFill l = some v ∧ v ∈ l ∧ (∀ w ∈ l, l.count w ≤ l.count v) ∧
      (∀ w ∈ l, l.count w = l.count v → Val.ltb w v = false) := by
  have hd : l.dedup ≠ [] := by
    intro hnil
    exact h ((List.dedup_eq_nil l).mp hnil)
  obtain ⟨v0, hv0, hmax0⟩ := exists_count_max (fun w => l.count w) l.dedup hd
  have hv0c : v0 ∈ modeCandidates l := by
    rw [modeCandidates, List.mem_filter]
    refine ⟨hv0, ?_⟩
    rw [List.all_eq_true]
    intro w hw
    exact decide_eq_true (hmax0 w hw)
  have hcne : modeCandidates l ≠ [] := List.ne_nil_of_mem hv0c
  obtain ⟨c, cs, hcons⟩ := List.exists_cons_of_ne_nil hcne
  have hrmem := foldl_min_mem cs c
  have hrmin := foldl_min_le cs c
  set r := cs.foldl (fun a b => if Val.ltb b a then b else a) c with hr
  have hrc : r ∈ modeCandidates l := hcons ▸ hrmem
  have hrdedup : r ∈ l.dedup := (List.mem_filter.mp hrc).1
  have hrall : ∀ w ∈ l.dedup, l.count w ≤ l.count r := by
    have := (List.mem_filter.mp hrc).2
    rw [List.all_eq_true] at this
    intro w hw
    exact of_decide_eq_true (this w hw)
  refine ⟨r, ?_, List.mem_dedup.mp hrdedup, ?_, ?_⟩
  · rw [modeFill, hcons, minVal]
  · intro w hw
    exact hrall w (List.mem_dedup.mpr hw)
  · intro w hw hcount
    have hwc : w ∈ modeCandidates l := by
      rw [modeCandidates, List.mem_filter]
      refine ⟨List.mem_dedup.mpr hw, ?_⟩
      rw [List.all_eq_true]
      intro u hu
      exact decide_eq_true (hcount ▸ hrall u hu)
    exact hrmin w (hcons ▸ hwc)

end Cleaner

namespace Inventory

lemma digitsLEfuel_eq : ∀ (f n : Nat), n ≤ f → digitsLEfuel f n = Nat.digits 10 n := by
  intro f
  induction f with
  | zero =>
    intro n hn
    have : n = 0 := Nat.le_zero.mp hn
    rw [this, Nat.digits_zero]
    rfl
  | succ f ih =>
    intro n hn
    cases n with
    | zero =>
      rw [Nat.digits_zero]
      rfl
    | succ n =>
      rw [digitsLEfuel]
      have hdiv : (n + 1) / 10 ≤ f := by
        have h1 : (n + 1) / 10 < n + 1 := Nat.div_lt_self (Nat.succ_pos n) (by norm_num)
        omega
      rw [ih _ hdiv]
      rw [Nat.digits_def' (by norm_num : (1:Nat) < 10) (Nat.succ_pos n)]

lemma digitsLE_eq (n : Nat) : digitsLE n = Nat.digits 10 n :=
  digitsLEfuel_eq n n le_rfl

lemma decodeDigits_replicate_zero (k : Nat) (l : List Char) :
    decodeDigits (List.replicate k '0' ++ l) = decodeDigits l := by
  induction k with
  | zero => rfl
  | succ k ih =>
    rw [List.replicate_succ, List.cons_append]
    exact ih

lemma digitChar_toNat {d : Nat} (hd : d < 10) : (digitChar d).toNat = 48 + d := by
  interval_cases d <;> rfl

lemma foldr_digits_eq_ofDigits (ds : List Nat) (h : ∀ d ∈ ds, d < 10) :
    List.foldr (fun c a => 10 * a + (Char.toNat c - 48)) 0 (ds.map digitChar) =
      Nat.ofDigits 10 ds := by
  induction ds with
  | nil => rfl
  | cons d ds ih =>
    rw [List.map_cons, List.foldr_cons, ih (fun x hx => h x (List.mem_cons_of_mem _ hx))]
    rw [digitChar_toNat (h d (List.mem_cons_self _ _))]
    rw [Nat.ofDigits_cons]
    omega

lemma decodeDigits_natToChars (n : Nat) : decodeDigits (natToChars n) = n := by
  by_cases h0 : n = 0
  · rw [h0]
    rfl
  · rw [natToChars, if_neg h0, decodeDigits, List.foldl_reverse]
    have hds : ∀ d ∈ digitsLE n, d < 10 := by
      rw [digitsLE_eq]
      intro d hd
      exact Nat.digits_lt_base (by norm_num) hd
    have := foldr_digits_eq_ofDigits (digitsLE n) hds
    rw [show (fun (x : Char) (y : Nat) => 10 * y + (x.toNat - 48)) =
          (fun (c : Char) (a : Nat) => 10 * a + (Char.toNat c - 48)) from rfl]
    rw [this, digitsLE_eq, Nat.ofDigits_digits]

lemma formatPID_inj {m n : Nat} (h : formatPID m = formatPID n) : m = n := by
  have hdata : pidChars m = pidChars n := congrArg String.data h
  rw [pidChars, pidChars] at hdata
  have htail := List.cons_injective hdata
  have hm := decodeDigits_replicate_zero (3 - (natToChars m).length) (natToChars m)
  have hn := decodeDigits_replicate_zero (3 - (natToChars n).length) (natToChars n)
  have : decodeDigits (List.replicate (3 - (natToChars m).length) '0' ++ natToChars m) =
      decodeDigits (List.replicate (3 - (natToChars n).length) '0' ++ natToChars n) := by
    rw [htail]
  rw [hm, hn, decodeDigits_natToChars, decodeDigits_natToChars] at this
  exact this

end Inventory

/-! ## Claim theorems -/

namespace Cleaner

/-- C3: for every table, method and scope the imputation engine does not
mutate its input: after the Clean Data block the uploaded dataframe (its
cells and hence its missing-value pattern) is exactly the input, and the
result is the separately produced cleaned table. -/
theorem imputation_does_not_mutate_input (m : FillMethod) (ex : Bool) (t : Table) :
    (runCleanBlock m ex t).df = t ∧
    Table.missingPattern (runCleanBlock m ex t).df = Table.missingPattern t ∧
    (runCleanBlock m ex t).cleaned = cleanData m ex t :=
  ⟨rfl, rfl, rfl⟩

/-- C5: with the exclude-non-numeric flag set, a column whose declared
dtype is not numeric is outside the processing scope for every method
and appears in the output exactly as in the input. -/
theorem exclude_scope_preserves_non_numeric (m : FillMethod) (t : Table) (i : Nat)
    (h1 : i < t.length) (h2 : i < (cleanData m true t).length)
    (hnn : (t.get ⟨i, h1⟩).numeric = false) :
    (cleanData m true t).get ⟨i, h2⟩ = t.get ⟨i, h1⟩ := by
  have hstep : (cleanData m true t).get ⟨i, h2⟩ = colClean m true (t.get ⟨i, h1⟩) := by
    simp [cleanData]
  rw [hstep, colClean, hnn]
  simp

/-- Witness for C5 at a concrete one-column table. -/
theorem exclude_scope_preserves_non_numeric_witness :
    (cleanData .mode true [⟨"Name", false, [some (.str "x"), none]⟩]).get
        ⟨0, by decide⟩ =
      (([⟨"Name", false, [some (.str "x"), none]⟩] : Table)).get ⟨0, by decide⟩ :=
  exclude_scope_preserves_non_numeric .mode [⟨"Name", false, [some (.str "x"), none]⟩]
    0 (by decide) (by decide) (by decide)

end Cleaner

namespace Inventory

/-- C8: adding a product with an empty name is rejected with the error
message and is atomic — the returned state is the input state, so no
record is appended and the identifier counter is unchanged. -/
theorem add_empty_name_rejected (st : InventoryState) (product_id category : String)
    (quantity reorder_level : Nat) :
    add_product st product_id "" category quantity reorder_level =
      (st, Msg.error "Please enter a product name") := by
  rfl

/-- C9: clear-all empties the collection and resets the counter to 1, so
the next assigned identifier is P001. -/
theorem clear_all_resets (st : InventoryState) :
    (clearAll st).data = [] ∧ (clearAll st).next_id = 1 ∧
      formatPID (clearAll st).next_id = "P001" := by
  refine ⟨rfl, rfl, ?_⟩
  have h : formatPID 1 = "P001" := by decide
  exact h

end Inventory

namespace Cleaner

lemma nat_le_sum_of_mem {l : List Nat} {x : Nat} (h : x ∈ l) : x ≤ l.sum := by
  induction l with
  | nil => exact absurd h (List.not_mem_nil x)
  | cons a l ih =>
    rw [List.sum_cons]
    rcases List.mem_cons.mp h with hx | hx
    · rw [hx]
      exact Nat.le_add_right _ _
    · exact le_trans (ih hx) (Nat.le_add_left _ _)

/-- C4: under Mean or Median a column whose declared dtype is not
numeric gets no fill value, so it appears in the output unchanged (the
engine is a total function, so no exception arises), and when that
column had missing cells the reported remaining-missing-count is
strictly positive. -/
theorem mean_median_skip_non_numeric (m : FillMethod) (hm : m = .mean ∨ m = .median)
    (ex : Bool) (t : Table) (i : Nat)
    (h1 : i < t.length) (h2 : i < (cleanData m ex t).length)
    (hnn : (t.get ⟨i, h1⟩).numeric = false) :
    (cleanData m ex t).get ⟨i, h2⟩ = t.get ⟨i, h1⟩ ∧
      (0 < (t.get ⟨i, h1⟩).missingCount → 0 < Table.missingCount (cleanData m ex t)) := by
  have hfv : fillValue m (t.get ⟨i, h1⟩) = none := by
    rcases hm with rfl | rfl
    · rw [fillValue, hnn]
      rfl
    · rw [fillValue, hnn]
      rfl
  have hcol : colClean m ex (t.get ⟨i, h1⟩) = t.get ⟨i, h1⟩ := by
    rw [colClean]
    split
    · rfl
    · exact fillColumn_of_fillValue_none hfv
  have hstep : (cleanData m ex t).get ⟨i, h2⟩ = colClean m ex (t.get ⟨i, h1⟩) := by
    simp [cleanData]
  constructor
  · rw [hstep, hcol]
  · intro hmiss
    have hmem : (t.get ⟨i, h1⟩) ∈ t := List.get_mem t i h1
    have hmem2 : colClean m ex (t.get ⟨i, h1⟩) ∈ cleanData m ex t :=
      List.mem_map_of_mem _ hmem
    rw [hcol] at hmem2
    have hmem3 : (t.get ⟨i, h1⟩).missingCount ∈ (cleanData m ex t).map Column.missingCount :=
      List.mem_map_of_mem _ hmem2
    have hle := nat_le_sum_of_mem hmem3
    simp only [Table.missingCount]
    omega

/-- Witness for C4: Mean on a text column with a missing cell leaves the
column unchanged and reports one remaining missing value. -/
theorem mean_median_skip_non_numeric_witness :
    ((cleanData .mean false [⟨"Name", false, [none, some (.str "a")]⟩]).get ⟨0, by decide⟩ =
      (([⟨"Name", false, [none, some (.str "a")]⟩] : Table)).get ⟨0, by decide⟩) ∧
    0 < Table.missingCount (cleanData .mean false [⟨"Name", false, [none, some (.str "a")]⟩]) := by
  have h := mean_median_skip_non_numeric .mean (Or.inl rfl) false
    [⟨"Name", false, [none, some (.str "a")]⟩] 0 (by decide) (by decide) (by decide)
  exact ⟨h.1, h.2 (by decide)⟩

/-- C6: the imputation engine is idempotent: on a table whose in-scope
columns are all eligible for the method, a second run with the same
method and scope returns the first run's output unchanged (the proof in
fact never needs the eligibility hypothesis). -/
theorem imputation_idempotent (m : FillMethod) (ex : Bool) (t : Table)
    (_helig : ∀ c ∈ t, inScope ex c = true → eligible m c = true) :
    cleanData m ex (cleanData m ex t) = cleanData m ex t :=
  cleanData_idem m ex t

/-- Witness for C6 at a concrete all-numeric table. -/
theorem imputation_idempotent_witness :
    cleanData .mean false (cleanData .mean false [⟨"Age", true, [some (.num 1), none]⟩]) =
      cleanData .mean false [⟨"Age", true, [some (.num 1), none]⟩] :=
  imputation_idempotent .mean false [⟨"Age", true, [some (.num 1), none]⟩] (by decide)

end Cleaner

namespace Inventory

lemma generateFrom_status (picks : List SamplePick) : ∀ (i : Nat),
    ∀ p ∈ generateFrom i picks, p.status = statusOf p.quantityAvailable p.reorderLevel := by
  induction picks with
  | nil =>
    intro i p hp
    exact absurd hp (List.not_mem_nil p)
  | cons pk rest ih =>
    intro i p hp
    rcases List.mem_cons.mp hp with hp1 | hp2
    · rw [hp1]
      rfl
    · exact ih (i + 1) p hp2

/-- C7: every record present immediately after a create operation
carries the derived status: all records produced by
`generate_sample_data` satisfy it, and `add_product` preserves it (the
new record is built with it, old records keep theirs). -/
theorem status_derived_after_create :
    (∀ (picks : List SamplePick), ∀ p ∈ generate_sample_data picks,
        p.status = statusOf p.quantityAvailable p.reorderLevel) ∧
    (∀ (st : InventoryState) (product_id name category : String)
        (quantity reorder_level : Nat),
      (∀ p ∈ st.data, p.status = statusOf p.quantityAvailable p.reorderLevel) →
      ∀ p ∈ (add_product st product_id name category quantity reorder_level).1.data,
        p.status = statusOf p.quantityAvailable p.reorderLevel) := by
  constructor
  · intro picks
    exact generateFrom_status picks 1
  · intro st pid name cat q r hinv p hp
    rw [add_product] at hp
    split at hp
    · exact hinv p hp
    · have hp' : p ∈ st.data ++ [⟨pid, name, cat, q, r, statusOf q r⟩] := hp
      rcases List.mem_append.mp hp' with h | h
      · exact hinv p h
      · rw [List.mem_singleton] at h
        rw [h]

/-- Witness for C7: adding quantity 3 against reorder level 5 to an
empty store yields a record whose stored status is the derived one. -/
theorem status_derived_after_create_witness :
    (Product.mk "P001" "Widget" "Electronics" 3 5 "Low Stock").status = statusOf 3 5 := by
  have happ := status_derived_after_create.2 ⟨[], 1⟩ "P001" "Widget" "Electronics" 3 5
    (by intro p hp; exact absurd hp (List.not_mem_nil p))
  exact happ (Product.mk "P001" "Widget" "Electronics" 3 5 "Low Stock") (by decide)

lemma generateFrom_length (picks : List SamplePick) : ∀ (i : Nat),
    (generateFrom i picks).length = picks.length := by
  induction picks with
  | nil => intro i; rfl
  | cons pk rest ih =>
    intro i
    rw [generateFrom, List.length_cons, List.length_cons, ih (i + 1)]

lemma generateFrom_map_id (picks : List SamplePick) : ∀ (i : Nat),
    (generateFrom i picks).map Product.productID =
      (List.range picks.length).map (fun j => formatPID (i + j)) := by
  induction picks with
  | nil => intro i; rfl
  | cons pk rest ih =>
    intro i
    rw [generateFrom, List.map_cons, List.length_cons, List.range_succ_eq_map,
      List.map_cons, ih (i + 1), List.map_map]
    have htail : List.map (fun j => formatPID (i + 1 + j)) (List.range rest.length) =
        List.map ((fun j => formatPID (i + j)) ∘ Nat.succ) (List.range rest.length) := by
      apply List.map_congr_left
      intro j hj
      show formatPID (i + 1 + j) = formatPID (i + (j + 1))
      congr 1
      omega
    rw [htail, Nat.add_zero]
    rfl

/-- C10: after regenerating sample data from N picks the records carry
the identifiers P001 … P00N in order, the counter is N + 1, and the
identifier the next add would use is distinct from every stored one. -/
theorem regenerate_ids_fresh (st : InventoryState) (picks : List SamplePick) :
    ((regenerateSampleData st picks).data.map Product.productID =
      (List.range picks.length).map (fun j => formatPID (j + 1))) ∧
    (regenerateSampleData st picks).next_id = picks.length + 1 ∧
    formatPID (regenerateSampleData st picks).next_id ∉
      (regenerateSampleData st picks).data.map Product.productID := by
  have hmap : (generate_sample_data picks).map Product.productID =
      (List.range picks.length).map (fun j => formatPID (1 + j)) :=
    generateFrom_map_id picks 1
  have hmap' : (generate_sample_data picks).map Product.productID =
      (List.range picks.length).map (fun j => formatPID (j + 1)) := by
    rw [hmap]
    apply List.map_congr_left
    intro j hj
    congr 1
    omega
  have hlen : (generate_sample_data picks).length = picks.length :=
    generateFrom_length picks 1
  have hdata : (regenerateSampleData st picks).data = generate_sample_data picks := rfl
  have hnext : (regenerateSampleData st picks).next_id =
      (generate_sample_data picks).length + 1 := rfl
  refine ⟨?_, ?_, ?_⟩
  · rw [hdata, hmap']
  · rw [hnext, hlen]
  · intro hmem
    rw [hdata, hmap', hnext, hlen] at hmem
    rcases List.mem_map.mp hmem with ⟨j, hj, heq⟩
    have hj' : j < picks.length := List.mem_range.mp hj
    have : j + 1 = picks.length + 1 := formatPID_inj heq
    omega

end Inventory

namespace Cleaner

/-- C2 counterexample: on the column `["b", "a", NaN]` the two present
values tie at one occurrence each; the first-encountered value in row
order is `"b"`, but the code fills with `"a"` (pandas `mode()` returns
the tied values in ascending sorted order and `mode()[0]` picks the
smallest), so the claimed tie-break is false. -/
theorem mode_tie_first_encountered_refuted :
    cleanData .mode false [⟨"X", false, [some (.str "b"), some (.str "a"), none]⟩] =
      [⟨"X", false, [some (.str "b"), some (.str "a"), some (.str "a")]⟩] ∧
    cleanData .mode false [⟨"X", false, [some (.str "b"), some (.str "a"), none]⟩] ≠
      [⟨"X", false, [some (.str "b"), some (.str "a"), some (.str "b")]⟩] := by
  constructor
  · decide
  · decide

/-- C2 (amended): for every column with at least one non-missing value,
Mode fills the missing cells with a single value `v` of maximal
multiplicity among the present values; when several values are tied for
most frequent, `v` is the smallest tied value in the value ordering
(not the first-encountered one). -/
theorem mode_fills_most_frequent_min_tie (c : Column) (h : presentVals c ≠ []) :
    ∃ v, fillColumn .mode c = { c with cells := c.cells.map (fun o => some (o.getD v)) } ∧
      v ∈ presentVals c ∧
      (∀ w ∈ presentVals c, (presentVals c).count w ≤ (presentVals c).count v) ∧
      (∀ w ∈ presentVals c, (presentVals c).count w = (presentVals c).count v →
        Val.ltb w v = false) := by
  obtain ⟨v, hv, hmem, hmax, hmin⟩ := modeFill_spec (presentVals c) h
  refine ⟨v, ?_, hmem, hmax, hmin⟩
  have hfv : fillValue .mode c = some v := hv
  exact fillColumn_of_fillValue_some hfv

/-- Witness for the amended C2 at the tied column `["b", "a", NaN]`. -/
theorem mode_fills_most_frequent_min_tie_witness :
    ∃ v, fillColumn .mode ⟨"X", false, [some (.str "b"), some (.str "a"), none]⟩ =
        { Column.mk "X" false [some (.str "b"), some (.str "a"), none] with
          cells := [some (Val.str "b"), some (.str "a"), none].map
            (fun o => some (o.getD v)) } ∧
      v ∈ presentVals ⟨"X", false, [some (.str "b"), some (.str "a"), none]⟩ ∧
      (∀ w ∈ presentVals ⟨"X", false, [some (.str "b"), some (.str "a"), none]⟩,
        (presentVals ⟨"X", false, [some (.str "b"), some (.str "a"), none]⟩).count w ≤
          (presentVals ⟨"X", false, [some (.str "b"), some (.str "a"), none]⟩).count v) ∧
      (∀ w ∈ presentVals ⟨"X", false, [some (.str "b"), some (.str "a"), none]⟩,
        (presentVals ⟨"X", false, [some (.str "b"), some (.str "a"), none]⟩).count w =
          (presentVals ⟨"X", false, [some (.str "b"), some (.str "a"), none]⟩).count v →
        Val.ltb w v = false) :=
  mode_fills_most_frequent_min_tie ⟨"X", false, [some (.str "b"), some (.str "a"), none]⟩
    (by decide)

end Cleaner

namespace Cleaner

lemma fill_age : fillColumn .mean ⟨"Age", true, [some (.num 28), none, some (.num 30)]⟩ =
    ⟨"Age", true, [some (.num 28), some (.num 29), some (.num 30)]⟩ := by
  have hp : presentNums ⟨"Age", true, [some (.num 28), none, some (.num 30)]⟩ =
      [28, 30] := rfl
  have hfv : fillValue .mean ⟨"Age", true, [some (.num 28), none, some (.num 30)]⟩ =
      some (.num 29) := by
    rw [fillValue, hp]
    norm_num [meanQ]
  rw [fillColumn_of_fillValue_some hfv]
  rfl

lemma fill_salary :
    fillColumn .mean ⟨"Salary", true, [none, some (.num 45000), some (.num 50000)]⟩ =
      ⟨"Salary", true, [some (.num 47500), some (.num 45000), some (.num 50000)]⟩ := by
  have hp : presentNums ⟨"Salary", true, [none, some (.num 45000), some (.num 50000)]⟩ =
      [45000, 50000] := rfl
  have hfv : fillValue .mean ⟨"Salary", true, [none, some (.num 45000), some (.num 50000)]⟩ =
      some (.num 47500) := by
    rw [fillValue, hp]
    norm_num [meanQ]
  rw [fillColumn_of_fillValue_some hfv]
  rfl

lemma scenario_clean : cleanData .mean false exampleInput = exampleExpected := by
  show [colClean .mean false ⟨"Age", true, [some (.num 28), none, some (.num 30)]⟩,
        colClean .mean false ⟨"Salary", true, [none, some (.num 45000), some (.num 50000)]⟩] =
      exampleExpected
  have h1 : colClean .mean false ⟨"Age", true, [some (.num 28), none, some (.num 30)]⟩ =
      fillColumn .mean ⟨"Age", true, [some (.num 28), none, some (.num 30)]⟩ := rfl
  have h2 : colClean .mean false ⟨"Salary", true, [none, some (.num 45000), some (.num 50000)]⟩ =
      fillColumn .mean ⟨"Salary", true, [none, some (.num 45000), some (.num 50000)]⟩ := rfl
  rw [h1, h2, fill_age, fill_salary]
  rfl

lemma meanQ_of_ne_nil {l : List ℚ} (h : l ≠ []) : meanQ l = some (l.sum / l.length) := by
  cases l with
  | nil => exact absurd rfl h
  | cons a t => rfl

lemma filterMap_present_eq_map (cells : List (Option Val))
    (hwf : cells.all (fun o => (o.bind Val.asNum).isSome || o.isNone) = true) :
    cells.filterMap id = (cells.filterMap (fun o => o.bind Val.asNum)).map Val.num := by
  induction cells with
  | nil => rfl
  | cons o rest ih =>
    rw [List.all_cons, Bool.and_eq_true] at hwf
    obtain ⟨ho, hrest⟩ := hwf
    cases o with
    | none => simpa using ih hrest
    | some v =>
      cases v with
      | num q => simpa [List.filterMap_cons, Val.asNum] using ih hrest
      | str s => simp [Val.asNum] at ho

/-- C1: with method Mean and scope all columns, on a well-formed table
every numeric column with at least one present value has each missing
cell replaced by the arithmetic mean (sum divided by count) of its
non-missing values — which are exactly the numbers held by its cells —
and on the specification's scenario table the engine returns
`Age=[28, 29, 30], Salary=[47500, 45000, 50000]` with zero remaining
missing cells. -/
theorem mean_fills_numeric_columns :
    (cleanData .mean false exampleInput = exampleExpected ∧
      Table.missingCount (cleanData .mean false exampleInput) = 0) ∧
    (∀ (t : Table), Table.wf t = true →
      ∀ (i : Nat) (h1 : i < t.length) (h2 : i < (cleanData .mean false t).length),
        (t.get ⟨i, h1⟩).numeric = true → presentNums (t.get ⟨i, h1⟩) ≠ [] →
        presentVals (t.get ⟨i, h1⟩) = (presentNums (t.get ⟨i, h1⟩)).map Val.num ∧
        ((cleanData .mean false t).get ⟨i, h2⟩).cells =
          (t.get ⟨i, h1⟩).cells.map (fun o => some (o.getD (Val.num
            ((presentNums (t.get ⟨i, h1⟩)).sum / (presentNums (t.get ⟨i, h1⟩)).length))))) := by
  constructor
  · refine ⟨scenario_clean, ?_⟩
    rw [scenario_clean]
    rfl
  · intro t hwf i h1 h2 hnum hne
    have hmem : t.get ⟨i, h1⟩ ∈ t := List.get_mem t i h1
    have hwfc : (t.get ⟨i, h1⟩).cells.all
        (fun o => (o.bind Val.asNum).isSome || o.isNone) = true := by
      rw [Table.wf, List.all_eq_true] at hwf
      have := hwf _ hmem
      rw [hnum] at this
      simpa using this
    have hpv : presentVals (t.get ⟨i, h1⟩) =
        (presentNums (t.get ⟨i, h1⟩)).map Val.num :=
      filterMap_present_eq_map _ hwfc
    refine ⟨hpv, ?_⟩
    have hfv : fillValue .mean (t.get ⟨i, h1⟩) =
        some (Val.num ((presentNums (t.get ⟨i, h1⟩)).sum /
          (presentNums (t.get ⟨i, h1⟩)).length)) := by
      rw [fillValue, hnum, if_pos rfl, meanQ_of_ne_nil hne]
      rfl
    have hcol : colClean .mean false (t.get ⟨i, h1⟩) =
        fillColumn .mean (t.get ⟨i, h1⟩) := rfl
    have hstep : (cleanData .mean false t).get ⟨i, h2⟩ =
        colClean .mean false (t.get ⟨i, h1⟩) := by
      simp [cleanData]
    rw [hstep, hcol, fillColumn_of_fillValue_some hfv]

/-- Witness for C1's general part at the scenario table's Age column. -/
theorem mean_fills_numeric_columns_witness :
    presentVals (exampleInput.get ⟨0, by decide⟩) =
      (presentNums (exampleInput.get ⟨0, by decide⟩)).map Val.num ∧
    ((cleanData .mean false exampleInput).get ⟨0, by decide⟩).cells =
      (exampleInput.get ⟨0, by decide⟩).cells.map (fun o => some (o.getD (Val.num
        ((presentNums (exampleInput.get ⟨0, by decide⟩)).sum /
          (presentNums (exampleInput.get ⟨0, by decide⟩)).length)))) :=
  mean_fills_numeric_columns.2 exampleInput (by decide) 0 (by decide) (by decide)
    (by decide) (by decide)

end Cleaner

namespace Inventory

/-- Witness for C10 at one concrete pick list. -/
theorem regenerate_ids_fresh_witness :
    ((regenerateSampleData ⟨[], 1⟩ [⟨"Phone", "Electronics", 5, 2⟩]).data.map
        Product.productID =
      (List.range 1).map (fun j => formatPID (j + 1))) ∧
    (regenerateSampleData ⟨[], 1⟩ [⟨"Phone", "Electronics", 5, 2⟩]).next_id = 1 + 1 ∧
    formatPID (regenerateSampleData ⟨[], 1⟩ [⟨"Phone", "Electronics", 5, 2⟩]).next_id ∉
      (regenerateSampleData ⟨[], 1⟩ [⟨"Phone", "Electronics", 5, 2⟩]).data.map
        Product.productID :=
  regenerate_ids_fresh ⟨[], 1⟩ [⟨"Phone", "Electronics", 5, 2⟩]

end Inventory
